import Mathlib

/-!
Verification development for the spirq SPIR-V reflection library.

The definitions below shallowly embed the data model and the operations of
the crate root (src/lib.rs): the SpirvBinary byte-buffer ingress, the
Manifest record with its merge operation, and the symbol resolvers.
Components of the crate that live in submodules absent from the sources we
verify (the ty, sym and error modules) are modelled from the specification
and marked as such in their doc comments.

Rust HashMap fields are embedded as association lists with unique keys;
lookup, insert and update semantics mirror the HashMap entry API used by
the source.  Machine integers (u32) are embedded as Nat; none of the
verified operations can overflow them.
-/

/-- Modelled from the spec (error.rs is not among the sources): the error
taxonomy of section 7, one constructor per discriminant. -/
inductive Error where
  | corruptedSpirv
  | unsupportedSpirv
  | mismatchedManifest
deriving DecidableEq, Repr

/-- Interface variable location and component, embedding
InterfaceLocation(u32, u32). -/
abbrev InterfaceLocation := Nat × Nat

/-- Descriptor set and binding point, embedding DescriptorBinding(u32, u32). -/
abbrev DescriptorBinding := Nat × Nat

/-- Embedding of the ResourceLocator enum of lib.rs. -/
inductive ResourceLocator where
  | input (loc : InterfaceLocation)
  | output (loc : InterfaceLocation)
  | descriptor (bind : DescriptorBinding)
deriving DecidableEq, Repr

/-- Embedding of the AccessType enum of lib.rs: ReadOnly = 1,
WriteOnly = 2, ReadWrite = 3. -/
inductive AccessType where
  | readOnly
  | writeOnly
  | readWrite
deriving DecidableEq, Repr

/-- The numeric discriminant of an AccessType value. -/
def AccessType.toNat : AccessType → Nat
  | .readOnly => 1
  | .writeOnly => 2
  | .readWrite => 3

/-- Modelled from the spec (the FromPrimitive derive lives outside the
sources): AccessType::from_u32 maps a discriminant back to the variant,
or fails. -/
def AccessType.fromNat : Nat → Option AccessType
  | 1 => some .readOnly
  | 2 => some .writeOnly
  | 3 => some .readWrite
  | _ => none

/-- The bitwise-OR combination of two access values used by
merge_accesses; by c7 below the fallback branch modelling the
source's unwrap is never reached. -/
def AccessType.or (a b : AccessType) : AccessType :=
  (AccessType.fromNat (a.toNat ||| b.toNat)).getD .readWrite

mutual
/-- Modelled from the spec (ty.rs is not among the sources): the Type
tagged value of section 3 — scalars, vectors, matrices, arrays, structs
and the opaque image kinds. -/
inductive Ty where
  | scalarBool
  | scalarInt (signed : Bool) (width : Nat)
  | scalarFloat (width : Nat)
  | vecTy (elem : Ty) (count : Nat)
  | matTy (col : Ty) (count : Nat) (stride : Option Nat) (rowMajor : Option Bool)
  | arrTy (elem : Ty) (count : Option Nat) (stride : Nat)
  | structTy (sname : Option String) (members : Members)
  | image
  | samplerTy
  | sampledImage
  | subpassData
/-- Modelled from the spec: the ordered member sequence of a struct type;
each member carries its byte offset, an optional name and a type. -/
inductive Members where
  | nil
  | cons (offset : Nat) (mname : Option String) (ty : Ty) (rest : Members)
end
deriving instance DecidableEq for Ty, Members

/-- The member sequence as an association list keyed by byte offset. -/
def Members.toList : Members → List (Nat × Option String × Ty)
  | .nil => []
  | .cons off nm t rest => (off, nm, t) :: rest.toList

/-- Rebuild a member sequence from its association-list form. -/
def Members.ofList : List (Nat × Option String × Ty) → Members
  | [] => .nil
  | (off, nm, t) :: rest => .cons off nm t (Members.ofList rest)

theorem Members.toList_ofList (l : List (Nat × Option String × Ty)) :
    (Members.ofList l).toList = l := by
  induction l with
  | nil => rfl
  | cons h t ih => cases h with | mk a b => simp [Members.ofList, Members.toList, ih]

theorem Members.ofList_toList : (ms : Members) → Members.ofList ms.toList = ms
  | .nil => rfl
  | .cons off nm t rest => by
    simp [Members.ofList, Members.toList, Members.ofList_toList rest]

/-- Modelled from the spec (ty.rs is not among the sources): the
DescriptorType tagged value of section 3, carrying the underlying Type
where member resolution applies. -/
inductive DescriptorType where
  | uniformBuffer (ty : Ty)
  | storageBuffer (ty : Ty)
  | sampledImage (ty : Ty)
  | storageImage (ty : Ty)
  | sampler
  | combinedImageSampler (ty : Ty)
  | subpassInput
  | inputAttachment
deriving DecidableEq

/-- Modelled from the spec (sym.rs is not among the sources): one segment
of a dot-separated symbol — an integer index, a name, or the empty
segment that leads push-constant symbols.  A symbol in parsed form is a
list of segments. -/
inductive Seg where
  | index (i : Nat)
  | name (s : String)
  | empty
deriving DecidableEq

/-- Deterministic hash of an optional name. -/
def strOptHash : Option String → Nat
  | none => 0
  | some s => s.toList.foldl (fun a c => Nat.pair a c.toNat) 1

mutual
/-- Modelled from the spec, design note on hashing: a deterministic
structural content hash folding in the tag, primitive widths, member
offsets, strides and child hashes, standing in for the DefaultHasher
fold over the Hash derive of ty.rs. -/
def tyHash : Ty → Nat
  | .scalarBool => Nat.pair 0 0
  | .scalarInt s w => Nat.pair 1 (Nat.pair (cond s 1 0) w)
  | .scalarFloat w => Nat.pair 2 w
  | .vecTy e n => Nat.pair 3 (Nat.pair (tyHash e) n)
  | .matTy c n st rm =>
      Nat.pair 4 (Nat.pair (tyHash c) (Nat.pair n (Nat.pair (st.getD 0) (cond (rm.getD false) 1 0))))
  | .arrTy e c st => Nat.pair 5 (Nat.pair (tyHash e) (Nat.pair (c.getD 0) st))
  | .structTy n ms => Nat.pair 6 (Nat.pair (strOptHash n) (membersHash ms))
  | .image => Nat.pair 7 0
  | .samplerTy => Nat.pair 8 0
  | .sampledImage => Nat.pair 9 0
  | .subpassData => Nat.pair 10 0
/-- Structural hash of a struct member sequence. -/
def membersHash : Members → Nat
  | .nil => 0
  | .cons off nm t rest =>
      Nat.pair (Nat.pair off (Nat.pair (strOptHash nm) (tyHash t))) (membersHash rest) + 1
end

/-- Modelled from the spec: the structural hash of a descriptor type,
mixing the variant tag with the hash of the carried type. -/
def descHash : DescriptorType → Nat
  | .uniformBuffer t => Nat.pair 0 (tyHash t)
  | .storageBuffer t => Nat.pair 1 (tyHash t)
  | .sampledImage t => Nat.pair 2 (tyHash t)
  | .storageImage t => Nat.pair 3 (tyHash t)
  | .sampler => Nat.pair 4 0
  | .combinedImageSampler t => Nat.pair 5 (tyHash t)
  | .subpassInput => Nat.pair 6 0
  | .inputAttachment => Nat.pair 7 0

-- Association-list embedding of std::collections::HashMap.

/-- Association-list embedding of a Rust HashMap with the given key and
value types. -/
abbrev AMap (K V : Type) := List (K × V)

/-- HashMap::get: the value stored at the first occurrence of a key. -/
def alookup {K V : Type} [DecidableEq K] : AMap K V → K → Option V
  | [], _ => none
  | (k, v) :: rest, q => if q = k then some v else alookup rest q

/-- The key list of an association list. -/
def akeys {K V : Type} (l : AMap K V) : List K := l.map Prod.fst

/-- An association list is well formed when no key occurs twice, as in a
HashMap. -/
def keysNodup {K V : Type} (l : AMap K V) : Prop := (akeys l).Nodup

/-- Replace the value stored at an existing key, leaving the list
unchanged when the key is absent; embeds updating through a HashMap
Occupied entry or get_mut. -/
def aset {K V : Type} [DecidableEq K] : AMap K V → K → V → AMap K V
  | [], _, _ => []
  | (k, v) :: rest, q, u => if q = k then (k, u) :: rest else (k, v) :: aset rest q u

/-- A conflict-checking value combiner: accept when the compatibility
test passes, combining the stored and incoming values, and reject
otherwise.  Instantiated per Manifest field below. -/
def combOf {V : Type} (p : V → V → Bool) (f : V → V → V) (w v : V) : Option V :=
  if p w v then some (f w v) else none

/-- The entry loop shared by merge_descs, merge_names and merge_accesses
of lib.rs: walk the entries of the other map in order; a vacant key is
inserted, an occupied key has its values combined, and a combiner
rejection aborts with MismatchedManifest, leaving the partially updated
map behind, as the mutating Rust loop does. -/
def mergeIntoSt {K V : Type} [DecidableEq K] (comb : V → V → Option V) :
    AMap K V → AMap K V → Option Error × AMap K V
  | self, [] => (none, self)
  | self, (k, v) :: rest =>
    match alookup self k with
    | some w =>
      match comb w v with
      | some u => mergeIntoSt comb (aset self k u) rest
      | none => (some Error.mismatchedManifest, self)
    | none => mergeIntoSt comb (self ++ [(k, v)]) rest

-- Resolution results, embedding the structs of lib.rs.

/-- Embedding of MemberVariableResolution: byte offset and type of the
resolution target. -/
structure MemberVariableResolution where
  offset : Nat
  ty : Ty
deriving DecidableEq

/-- Embedding of InterfaceVariableResolution: location and type of an
interface variable. -/
structure InterfaceVariableResolution where
  location : InterfaceLocation
  ty : Ty
deriving DecidableEq

/-- Embedding of DescriptorResolution: binding point, descriptor type and
the optional member resolution inside it. -/
structure DescriptorResolution where
  desc_bind : DescriptorBinding
  desc_ty : DescriptorType
  member_var_res : Option MemberVariableResolution
deriving DecidableEq

/-- Member access by position inside a struct member sequence. -/
def Members.get : Members → Nat → Option (Nat × Option String × Ty)
  | .nil, _ => none
  | .cons off nm t _, 0 => some (off, nm, t)
  | .cons _ _ _ rest, i + 1 => rest.get i

/-- First member carrying the given name inside a struct member
sequence. -/
def Members.findName : Members → String → Option (Nat × Option String × Ty)
  | .nil, _ => none
  | .cons off nm t rest, s =>
      if nm = some s then some (off, nm, t) else rest.findName s

/-- Modelled from the spec, section 4.F descent semantics: walk the
remaining segments into a type, accumulating the byte offset — integer
segments index struct members, array elements or matrix columns, name
segments match struct member names; an unmatched segment or an
out-of-range array index fails the member resolution. -/
def Ty.resolveGo : List Seg → Ty → Nat → Option MemberVariableResolution
  | [], t, off => some ⟨off, t⟩
  | seg :: rest, t, off =>
    match t, seg with
    | .structTy _ ms, .index i =>
      match ms.get i with
      | some (moff, _, mt) => Ty.resolveGo rest mt (off + moff)
      | none => none
    | .structTy _ ms, .name s =>
      match ms.findName s with
      | some (moff, _, mt) => Ty.resolveGo rest mt (off + moff)
      | none => none
    | .arrTy e c st, .index i =>
      match c with
      | some n => if i < n then Ty.resolveGo rest e (off + i * st) else none
      | none => Ty.resolveGo rest e (off + i * st)
    | .matTy c _ st _, .index i =>
      match st with
      | some s => Ty.resolveGo rest c (off + i * s)
      | none => none
    | _, _ => none

/-- Modelled from the spec: Type::resolve of ty.rs — an empty remaining
symbol resolves to no member, a nonempty one is descended from offset
zero. -/
def Ty.resolve (t : Ty) (segs : List Seg) : Option MemberVariableResolution :=
  match segs with
  | [] => none
  | _ :: _ => Ty.resolveGo segs t 0

/-- Modelled from the spec: DescriptorType::resolve of ty.rs — member
resolution descends into the underlying type of buffer descriptors and
fails on opaque descriptors. -/
def DescriptorType.resolve : DescriptorType → List Seg → Option MemberVariableResolution
  | .uniformBuffer t, segs => t.resolve segs
  | .storageBuffer t, segs => t.resolve segs
  | _, _ => none

-- The Manifest record and its operations, embedded from lib.rs.

/-- Embedding of the Manifest struct of lib.rs. -/
structure Manifest where
  push_const_ty : Option Ty
  input_map : AMap InterfaceLocation Ty
  output_map : AMap InterfaceLocation Ty
  desc_map : AMap DescriptorBinding DescriptorType
  var_name_map : AMap String ResourceLocator
  desc_access_map : AMap DescriptorBinding AccessType
deriving DecidableEq

/-- Embedding of Manifest::resolve_ivar: the first segment is either an
index — then a second index supplies the component — or a name that the
name map must bind to an Input locator; no further segments may follow,
and the location is looked up in the supplied interface map. -/
def Manifest.resolve_ivar (m : Manifest) (map : AMap InterfaceLocation Ty)
    (sym : List Seg) : Option InterfaceVariableResolution :=
  match sym with
  | .index loc :: .index comp :: rest =>
    if rest = [] then
      (alookup map (loc, comp)).map (fun ty => ⟨(loc, comp), ty⟩)
    else none
  | .name n :: rest =>
    match alookup m.var_name_map n with
    | some (.input location) =>
      if rest = [] then
        (alookup map location).map (fun ty => ⟨location, ty⟩)
      else none
    | _ => none
  | _ => none

/-- Embedding of Manifest::resolve_input, which passes the OUTPUT map to
resolve_ivar, exactly as the source does. -/
def Manifest.resolve_input (m : Manifest) (sym : List Seg) :
    Option InterfaceVariableResolution :=
  m.resolve_ivar m.output_map sym

/-- Embedding of Manifest::resolve_output, which passes the INPUT map to
resolve_ivar, exactly as the source does. -/
def Manifest.resolve_output (m : Manifest) (sym : List Seg) :
    Option InterfaceVariableResolution :=
  m.resolve_ivar m.input_map sym

/-- Embedding of Manifest::resolve_desc: two leading index segments, or a
name bound to a Descriptor locator, select the binding; the descriptor
type must be present in the descriptor map; the remaining segments are
resolved inside it, and that member resolution is stored as found —
its failure does not fail the descriptor-level resolution. -/
def Manifest.resolve_desc (m : Manifest) (sym : List Seg) :
    Option DescriptorResolution :=
  match sym with
  | .index ds :: .index bp :: rest =>
    match alookup m.desc_map (ds, bp) with
    | some desc_ty => some ⟨(ds, bp), desc_ty, desc_ty.resolve rest⟩
    | none => none
  | .name n :: rest =>
    match alookup m.var_name_map n with
    | some (.descriptor desc_bind) =>
      match alookup m.desc_map desc_bind with
      | some desc_ty => some ⟨desc_bind, desc_ty, desc_ty.resolve rest⟩
      | none => none
    | _ => none
  | _ => none

/-- The descriptor-map combiner of Manifest::merge_descs: an occupied
binding keeps the stored descriptor type when the hashes agree and
rejects otherwise. -/
def descComb (w v : DescriptorType) : Option DescriptorType :=
  combOf (fun a b => descHash a == descHash b) (fun a _ => a) w v

/-- The name-map combiner of Manifest::merge_names: an occupied name
keeps the stored locator when the two locators are equal and rejects
otherwise. -/
def nameComb (w v : ResourceLocator) : Option ResourceLocator :=
  combOf (fun a b => a == b) (fun a _ => a) w v

/-- The access-map combiner of Manifest::merge_accesses: an occupied
binding always succeeds, storing the bitwise OR of the access values. -/
def accComb (w v : AccessType) : Option AccessType :=
  combOf (fun _ _ => true) AccessType.or w v

/-- The struct-member combiner of the push-constant merge, modelled from
the spec, section 4.F: members at equal offsets must have equal types,
and the stored member is kept. -/
def memberComb (w v : Option String × Ty) : Option (Option String × Ty) :=
  combOf (fun a b => a.2 == b.2) (fun a _ => a) w v

/-- The struct view of an optional push-constant type: its name and
members when it is Some(Type::Struct(..)), and nothing otherwise. -/
def asStruct : Option Ty → Option (Option String × Members)
  | some (Ty.structTy n ms) => some (n, ms)
  | _ => none

/-- Embedding of Manifest::merge_push_const, with the struct member merge
modelled from the spec: when the current type is a struct and the other
is too, the member sequences are merged member-wise keyed by offset;
when the current type is a struct and the other is not, nothing happens;
otherwise the current type is replaced by the other wholesale. -/
def mergePC (a o : Option Ty) : Option Error × Option Ty :=
  match asStruct a with
  | some (n, ms) =>
    match asStruct o with
    | some (_, ms2) =>
      match mergeIntoSt memberComb ms.toList ms2.toList with
      | (none, r) => (none, some (Ty.structTy n (Members.ofList r)))
      | (some e, r) => (some e, some (Ty.structTy n (Members.ofList r)))
    | none => (none, a)
  | none => (none, o)

/-- Embedding of Manifest::merge: replace the output map by the other
manifest's, then merge push constants, descriptors, names and accesses
in order, stopping at the first failure and leaving the partially merged
state behind, as the mutating Rust method does.  The returned pair is
the Result of the call together with the final state of self. -/
def Manifest.mergeRun (self other : Manifest) : Option Error × Manifest :=
  let m1 : Manifest := { self with output_map := other.output_map }
  match mergePC m1.push_const_ty other.push_const_ty with
  | (some e, pc) => (some e, { m1 with push_const_ty := pc })
  | (none, pc) =>
    let m2 : Manifest := { m1 with push_const_ty := pc }
    match mergeIntoSt descComb m2.desc_map other.desc_map with
    | (some e, d) => (some e, { m2 with desc_map := d })
    | (none, d) =>
      let m3 : Manifest := { m2 with desc_map := d }
      match mergeIntoSt nameComb m3.var_name_map other.var_name_map with
      | (some e, nm) => (some e, { m3 with var_name_map := nm })
      | (none, nm) =>
        let m4 : Manifest := { m3 with var_name_map := nm }
        match mergeIntoSt accComb m4.desc_access_map other.desc_access_map with
        | (some e, am) => (some e, { m4 with desc_access_map := am })
        | (none, am) => (none, { m4 with desc_access_map := am })

-- Byte-buffer ingress, embedded from the From<Vec<u8>> impl of lib.rs.

/-- The exact four-byte chunks of a byte list; a trailing remainder
shorter than four bytes is dropped, as by chunks_exact(4). -/
def chunks4 : List Nat → List (Nat × Nat × Nat × Nat)
  | a :: b :: c :: d :: rest => (a, b, c, d) :: chunks4 rest
  | _ => []

/-- u32::from_le_bytes on a four-byte chunk. -/
def wordOfLE : Nat × Nat × Nat × Nat → Nat
  | (a, b, c, d) => a + 256 * b + 65536 * c + 16777216 * d

/-- u32::from_be_bytes on a four-byte chunk. -/
def wordOfBE : Nat × Nat × Nat × Nat → Nat
  | (a, b, c, d) => 16777216 * a + 65536 * b + 256 * c + d

/-- Embedding of the From<Vec<u8>> impl for SpirvBinary: an empty buffer
is the empty module; otherwise the first byte selects the endianness —
0x03 little, 0x07 big, anything else yields the empty module — and the
exact four-byte chunks are decoded into words. -/
def SpirvBinary.fromBytes (x : List Nat) : List Nat :=
  match x with
  | [] => []
  | b :: _ =>
    if b = 3 then (chunks4 x).map wordOfLE
    else if b = 7 then (chunks4 x).map wordOfBE
    else []

/-- The little-endian byte encoding of a word sequence. -/
def encodeLE : List Nat → List Nat
  | [] => []
  | w :: rest =>
      w % 256 :: w / 256 % 256 :: w / 65536 % 256 :: w / 16777216 % 256 :: encodeLE rest

/-- The big-endian byte encoding of a word sequence. -/
def encodeBE : List Nat → List Nat
  | [] => []
  | w :: rest =>
      w / 16777216 % 256 :: w / 65536 % 256 :: w / 256 % 256 :: w % 256 :: encodeBE rest

-- Byte-ingress lemmas.

theorem chunks4_cons (a b c d : Nat) (rest : List Nat) :
    chunks4 (a :: b :: c :: d :: rest) = (a, b, c, d) :: chunks4 rest := rfl

theorem chunks4_take : (x : List Nat) →
    chunks4 (List.take (4 * (x.length / 4)) x) = chunks4 x
  | [] => rfl
  | [a] => by norm_num [chunks4]
  | [a, b] => by norm_num [chunks4]
  | [a, b, c] => by norm_num [chunks4]
  | a :: b :: c :: d :: rest => by
    have hlen : (a :: b :: c :: d :: rest).length = rest.length + 4 := by simp
    have harith : 4 * ((rest.length + 4) / 4) = 4 + 4 * (rest.length / 4) := by omega
    rw [hlen, harith, List.take_add]
    simp only [List.take, List.drop, List.cons_append, List.nil_append]
    rw [chunks4_cons, chunks4_cons, chunks4_take rest]

theorem fromBytes_take : (x : List Nat) →
    SpirvBinary.fromBytes (List.take (4 * (x.length / 4)) x) = SpirvBinary.fromBytes x
  | [] => rfl
  | [a] => by norm_num [SpirvBinary.fromBytes, chunks4, ite_self]
  | [a, b] => by norm_num [SpirvBinary.fromBytes, chunks4, ite_self]
  | [a, b, c] => by norm_num [SpirvBinary.fromBytes, chunks4, ite_self]
  | a :: b :: c :: d :: rest => by
    have hlen : (a :: b :: c :: d :: rest).length = rest.length + 4 := by simp
    have harith : 4 * ((rest.length + 4) / 4) = 4 + 4 * (rest.length / 4) := by omega
    rw [hlen, harith, List.take_add]
    simp only [List.take, List.drop, List.cons_append, List.nil_append]
    simp only [SpirvBinary.fromBytes]
    rw [chunks4_cons, chunks4_cons, chunks4_take rest]

/-- C3, counterexample: a five-byte little-endian buffer is NOT converted
to the empty module — the first four bytes decode to one word and the
trailing byte is dropped. -/
theorem c3_counterexample :
    ([3, 2, 35, 7, 9] : List Nat).length % 4 ≠ 0 ∧
    SpirvBinary.fromBytes [3, 2, 35, 7, 9] = [119734787] ∧
    SpirvBinary.fromBytes [3, 2, 35, 7, 9] ≠ [] := by decide

/-- C3, amended: converting a byte buffer whose length is not a multiple
of four drops the trailing remainder — the result equals the conversion
of the longest four-byte-aligned prefix; in particular a buffer shorter
than four bytes yields the empty module. -/
theorem c3_remainder_dropped (x : List Nat) (_hlen : x.length % 4 ≠ 0) :
    SpirvBinary.fromBytes x = SpirvBinary.fromBytes (List.take (4 * (x.length / 4)) x) ∧
    (x.length < 4 → SpirvBinary.fromBytes x = []) := by
  refine ⟨(fromBytes_take x).symm, fun h4 => ?_⟩
  have h := fromBytes_take x
  rw [show 4 * (x.length / 4) = 0 by omega] at h
  simpa using h.symm

/-- C3, witness for the amended theorem at the counterexample input. -/
theorem c3_remainder_dropped_witness :
    ([3, 2, 35, 7, 9] : List Nat).length % 4 ≠ 0 ∧
    SpirvBinary.fromBytes [3, 2, 35, 7, 9] = SpirvBinary.fromBytes [3, 2, 35, 7] := by
  refine ⟨by decide, ?_⟩
  have h := (c3_remainder_dropped [3, 2, 35, 7, 9] (by decide)).1
  simpa using h

theorem chunks4_encodeLE : (ws : List Nat) →
    chunks4 (encodeLE ws)
      = ws.map (fun w => (w % 256, w / 256 % 256, w / 65536 % 256, w / 16777216 % 256))
  | [] => rfl
  | w :: rest => by
    simp only [encodeLE, List.map, chunks4_cons, chunks4_encodeLE rest]

theorem chunks4_encodeBE : (ws : List Nat) →
    chunks4 (encodeBE ws)
      = ws.map (fun w => (w / 16777216 % 256, w / 65536 % 256, w / 256 % 256, w % 256))
  | [] => rfl
  | w :: rest => by
    simp only [encodeBE, List.map, chunks4_cons, chunks4_encodeBE rest]

theorem wordOfLE_digits {w : Nat} (h : w < 4294967296) :
    wordOfLE (w % 256, w / 256 % 256, w / 65536 % 256, w / 16777216 % 256) = w := by
  simp only [wordOfLE]
  omega

theorem wordOfBE_digits {w : Nat} (h : w < 4294967296) :
    wordOfBE (w / 16777216 % 256, w / 65536 % 256, w / 256 % 256, w % 256) = w := by
  simp only [wordOfBE]
  omega

/-- C4: byte-buffer ingress is endianness-agnostic — for a word sequence
whose little-endian encoding starts with byte 0x03 and whose big-endian
encoding starts with byte 0x07, both encodings convert back to exactly
that word sequence; and a nonempty buffer whose first byte is neither
0x03 nor 0x07 converts to the empty module. -/
theorem c4_endianness_agnostic :
    (∀ (ws : List Nat) (w0 : Nat) (rest : List Nat), ws = w0 :: rest →
      w0 % 256 = 3 → w0 / 16777216 = 7 → (∀ w ∈ ws, w < 4294967296) →
      SpirvBinary.fromBytes (encodeLE ws) = ws ∧
      SpirvBinary.fromBytes (encodeBE ws) = ws) ∧
    (∀ (b : Nat) (x : List Nat), b ≠ 3 → b ≠ 7 →
      SpirvBinary.fromBytes (b :: x) = []) := by
  constructor
  · rintro ws w0 rest rfl h3 h7 hbound
    have hmapLE : List.map wordOfLE (chunks4 (encodeLE (w0 :: rest))) = w0 :: rest := by
      rw [chunks4_encodeLE, List.map_map]
      have hc : ∀ w ∈ w0 :: rest,
          (wordOfLE ∘ fun w => (w % 256, w / 256 % 256, w / 65536 % 256, w / 16777216 % 256)) w
            = id w := fun w hw => wordOfLE_digits (hbound w hw)
      rw [List.map_congr_left hc, List.map_id]
    have hmapBE : List.map wordOfBE (chunks4 (encodeBE (w0 :: rest))) = w0 :: rest := by
      rw [chunks4_encodeBE, List.map_map]
      have hc : ∀ w ∈ w0 :: rest,
          (wordOfBE ∘ fun w => (w / 16777216 % 256, w / 65536 % 256, w / 256 % 256, w % 256)) w
            = id w := fun w hw => wordOfBE_digits (hbound w hw)
      rw [List.map_congr_left hc, List.map_id]
    constructor
    · show SpirvBinary.fromBytes
        (w0 % 256 :: w0 / 256 % 256 :: w0 / 65536 % 256 :: w0 / 16777216 % 256 :: encodeLE rest)
        = w0 :: rest
      rw [show SpirvBinary.fromBytes
          (w0 % 256 :: w0 / 256 % 256 :: w0 / 65536 % 256 :: w0 / 16777216 % 256 :: encodeLE rest)
          = if w0 % 256 = 3 then List.map wordOfLE (chunks4 (encodeLE (w0 :: rest)))
            else if w0 % 256 = 7 then List.map wordOfBE (chunks4 (encodeLE (w0 :: rest)))
            else [] from rfl, h3]
      simpa using hmapLE
    · show SpirvBinary.fromBytes
        (w0 / 16777216 % 256 :: w0 / 65536 % 256 :: w0 / 256 % 256 :: w0 % 256 :: encodeBE rest)
        = w0 :: rest
      rw [show SpirvBinary.fromBytes
          (w0 / 16777216 % 256 :: w0 / 65536 % 256 :: w0 / 256 % 256 :: w0 % 256 :: encodeBE rest)
          = if w0 / 16777216 % 256 = 3 then List.map wordOfLE (chunks4 (encodeBE (w0 :: rest)))
            else if w0 / 16777216 % 256 = 7 then List.map wordOfBE (chunks4 (encodeBE (w0 :: rest)))
            else [] from rfl, h7]
      simpa using hmapBE
  · intro b x hb3 hb7
    simp [SpirvBinary.fromBytes, hb3, hb7]

/-- C4, witness: the encodings of the one-word module holding the SPIR-V
magic both convert back to that module, and a buffer led by byte 5 is
rejected. -/
theorem c4_endianness_agnostic_witness :
    SpirvBinary.fromBytes (encodeLE [119734787]) = [119734787] ∧
    SpirvBinary.fromBytes (encodeBE [119734787]) = [119734787] ∧
    SpirvBinary.fromBytes [5, 0, 0, 0] = [] := by
  have h := c4_endianness_agnostic.1 [119734787] 119734787 [] rfl (by decide) (by decide)
    (by decide)
  exact ⟨h.1, h.2, c4_endianness_agnostic.2 5 [0, 0, 0] (by decide) (by decide)⟩

-- Symbol-resolver lemmas.

theorem resolve_ivar_name_input_locator (m : Manifest) (map : AMap InterfaceLocation Ty)
    (n : String) (rest : List Seg) (r : InterfaceVariableResolution)
    (h : m.resolve_ivar map (Seg.name n :: rest) = some r) :
    ∃ l, alookup m.var_name_map n = some (ResourceLocator.input l) := by
  simp only [Manifest.resolve_ivar] at h
  cases hl : alookup m.var_name_map n with
  | none => rw [hl] at h; simp at h
  | some rl =>
    cases rl with
    | input l => exact ⟨l, rfl⟩
    | output l => rw [hl] at h; simp at h
    | descriptor b => rw [hl] at h; simp at h

theorem resolve_ivar_name_output_none (m : Manifest) (map : AMap InterfaceLocation Ty)
    (n : String) (rest : List Seg) (loc : InterfaceLocation)
    (h : alookup m.var_name_map n = some (ResourceLocator.output loc)) :
    m.resolve_ivar map (Seg.name n :: rest) = none := by
  simp only [Manifest.resolve_ivar, h]

/-- C1: the resolver contradicts its own contract — resolve_input misses
a location present only in the input map and returns the entry stored
only in the output map, because the source passes the crossed map to
resolve_ivar. -/
theorem c1_resolve_input_reads_output_map :
    Manifest.resolve_input
      ⟨none, [((0, 0), Ty.scalarFloat 32)], [((1, 2), Ty.scalarBool)], [], [], []⟩
      [Seg.index 0, Seg.index 0] = none ∧
    Manifest.resolve_input
      ⟨none, [((0, 0), Ty.scalarFloat 32)], [((1, 2), Ty.scalarBool)], [], [], []⟩
      [Seg.index 1, Seg.index 2] = some ⟨(1, 2), Ty.scalarBool⟩ ∧
    alookup ([((0, 0), Ty.scalarFloat 32)] : AMap InterfaceLocation Ty) (0, 0)
      = some (Ty.scalarFloat 32) ∧
    alookup ([((1, 2), Ty.scalarBool)] : AMap InterfaceLocation Ty) (1, 2)
      = some Ty.scalarBool ∧
    alookup ([((0, 0), Ty.scalarFloat 32)] : AMap InterfaceLocation Ty) (1, 2) = none := by
  decide

/-- C10: the name path of resolve_ivar matches only Input locators — a
symbol whose first segment is a name resolves through either resolver
only when the name map binds that name to an Input locator, and a name
registered with an Output locator is matched by neither resolver. -/
theorem c10_output_locator_never_matched :
    (∀ (m : Manifest) (n : String) (rest : List Seg) (r : InterfaceVariableResolution),
      m.resolve_output (Seg.name n :: rest) = some r ∨
        m.resolve_input (Seg.name n :: rest) = some r →
      ∃ l, alookup m.var_name_map n = some (ResourceLocator.input l)) ∧
    (∀ (m : Manifest) (n : String) (rest : List Seg) (loc : InterfaceLocation),
      alookup m.var_name_map n = some (ResourceLocator.output loc) →
      m.resolve_input (Seg.name n :: rest) = none ∧
      m.resolve_output (Seg.name n :: rest) = none) := by
  constructor
  · rintro m n rest r (h | h)
    · exact resolve_ivar_name_input_locator m m.input_map n rest r h
    · exact resolve_ivar_name_input_locator m m.output_map n rest r h
  · intro m n rest loc h
    exact ⟨resolve_ivar_name_output_none m m.output_map n rest loc h,
      resolve_ivar_name_output_none m m.input_map n rest loc h⟩

/-- C10, witness: a manifest naming an output variable resolves it by
name through neither resolver, and a name bound to an Input locator is
recovered from a successful resolve_output. -/
theorem c10_output_locator_never_matched_witness :
    (Manifest.resolve_input ⟨none, [], [], [], [("o", ResourceLocator.output (0, 0))], []⟩
      [Seg.name "o"] = none ∧
     Manifest.resolve_output ⟨none, [], [], [], [("o", ResourceLocator.output (0, 0))], []⟩
      [Seg.name "o"] = none) ∧
    (∃ l, alookup ([("i", ResourceLocator.input (4, 0))] : AMap String ResourceLocator) "i"
      = some (ResourceLocator.input l)) := by
  constructor
  · exact c10_output_locator_never_matched.2 _ "o" [] (0, 0) (by decide)
  · exact c10_output_locator_never_matched.1
      ⟨none, [((4, 0), Ty.scalarBool)], [], [], [("i", ResourceLocator.input (4, 0))], []⟩
      "i" [] ⟨(4, 0), Ty.scalarBool⟩ (Or.inl (by decide))

theorem descriptorType_resolve_nil (dt : DescriptorType) : dt.resolve [] = none := by
  cases dt <;> rfl

/-- C8: when the leading segments identify a binding present in the
descriptor map — two integer segments, or a name bound to a Descriptor
locator — resolve_desc returns the descriptor-level result carrying
whatever the member resolution of the remaining segments produced; an
empty or unmatched remainder yields member_var_res = none without
failing the resolution. -/
theorem c8_resolve_desc_lenient (m : Manifest) (ds bp : Nat) (rest : List Seg)
    (dt : DescriptorType) (hdt : alookup m.desc_map (ds, bp) = some dt) :
    m.resolve_desc (Seg.index ds :: Seg.index bp :: rest)
      = some ⟨(ds, bp), dt, dt.resolve rest⟩ ∧
    (∀ n, alookup m.var_name_map n = some (ResourceLocator.descriptor (ds, bp)) →
      m.resolve_desc (Seg.name n :: rest) = some ⟨(ds, bp), dt, dt.resolve rest⟩) ∧
    (rest = [] ∨ dt.resolve rest = none →
      m.resolve_desc (Seg.index ds :: Seg.index bp :: rest) = some ⟨(ds, bp), dt, none⟩) := by
  refine ⟨?_, ?_, ?_⟩
  · simp only [Manifest.resolve_desc, hdt]
  · intro n hn
    simp only [Manifest.resolve_desc, hn, hdt]
  · rintro (rfl | hnone)
    · simp only [Manifest.resolve_desc, hdt, descriptorType_resolve_nil]
    · simp only [Manifest.resolve_desc, hdt, hnone]

/-- C8, witness: a uniform buffer at binding (0, 1) resolves with its
member, with an unmatched member name, and with an empty remainder. -/
theorem c8_resolve_desc_lenient_witness :
    Manifest.resolve_desc
      ⟨none, [], [],
        [((0, 1), DescriptorType.uniformBuffer
          (Ty.structTy none (Members.cons 0 (some "t") (Ty.scalarFloat 32) Members.nil)))],
        [], []⟩
      [Seg.index 0, Seg.index 1, Seg.name "nope"]
      = some ⟨(0, 1),
          DescriptorType.uniformBuffer
            (Ty.structTy none (Members.cons 0 (some "t") (Ty.scalarFloat 32) Members.nil)),
          none⟩ ∧
    Manifest.resolve_desc
      ⟨none, [], [],
        [((0, 1), DescriptorType.uniformBuffer
          (Ty.structTy none (Members.cons 0 (some "t") (Ty.scalarFloat 32) Members.nil)))],
        [], []⟩
      [Seg.index 0, Seg.index 1]
      = some ⟨(0, 1),
          DescriptorType.uniformBuffer
            (Ty.structTy none (Members.cons 0 (some "t") (Ty.scalarFloat 32) Members.nil)),
          none⟩ := by
  constructor
  · have h := (c8_resolve_desc_lenient
      ⟨none, [], [],
        [((0, 1), DescriptorType.uniformBuffer
          (Ty.structTy none (Members.cons 0 (some "t") (Ty.scalarFloat 32) Members.nil)))],
        [], []⟩
      0 1 [Seg.name "nope"]
      (DescriptorType.uniformBuffer
        (Ty.structTy none (Members.cons 0 (some "t") (Ty.scalarFloat 32) Members.nil)))
      (by decide)).2.2 (Or.inr (by decide))
    exact h
  · have h := (c8_resolve_desc_lenient
      ⟨none, [], [],
        [((0, 1), DescriptorType.uniformBuffer
          (Ty.structTy none (Members.cons 0 (some "t") (Ty.scalarFloat 32) Members.nil)))],
        [], []⟩
      0 1 []
      (DescriptorType.uniformBuffer
        (Ty.structTy none (Members.cons 0 (some "t") (Ty.scalarFloat 32) Members.nil)))
      (by decide)).2.2 (Or.inl rfl)
    exact h

-- Association-list lemmas.

theorem alookup_eq_none_iff {K V : Type} [DecidableEq K] :
    (l : AMap K V) → ∀ q, (alookup l q = none ↔ q ∉ akeys l)
  | [], q => by simp [alookup, akeys]
  | (k, v) :: rest, q => by
    simp only [alookup, akeys, List.map, List.mem_cons]
    by_cases h : q = k
    · simp [h]
    · simp only [if_neg h]
      rw [alookup_eq_none_iff rest q]
      simp [akeys, h]

theorem alookup_append_some {K V : Type} [DecidableEq K] :
    (l1 : AMap K V) → ∀ (l2 : AMap K V) (q : K) (v : V),
      alookup l1 q = some v → alookup (l1 ++ l2) q = some v
  | [], _, _, _ => by simp [alookup]
  | (k, w) :: rest, l2, q, v => by
    simp only [alookup, List.cons_append]
    by_cases h : q = k
    · simp [h]
    · simp only [if_neg h]
      exact alookup_append_some rest l2 q v

theorem alookup_append_none {K V : Type} [DecidableEq K] :
    (l1 : AMap K V) → ∀ (l2 : AMap K V) (q : K),
      alookup l1 q = none → alookup (l1 ++ l2) q = alookup l2 q
  | [], _, _ => by simp [alookup]
  | (k, w) :: rest, l2, q => by
    simp only [alookup, List.cons_append]
    by_cases h : q = k
    · simp [h]
    · simp only [if_neg h]
      exact alookup_append_none rest l2 q

theorem alookup_append_single {K V : Type} [DecidableEq K] (l : AMap K V) (k : K) (v : V)
    (q : K) :
    alookup (l ++ [(k, v)]) q
      = match alookup l q with
        | some w => some w
        | none => if q = k then some v else none := by
  cases h : alookup l q with
  | some w => simp [alookup_append_some l [(k, v)] q w h]
  | none => simp [alookup_append_none l [(k, v)] q h, alookup]

theorem akeys_aset {K V : Type} [DecidableEq K] :
    (l : AMap K V) → ∀ (k : K) (u : V), akeys (aset l k u) = akeys l
  | [], _, _ => rfl
  | (k0, v0) :: rest, k, u => by
    simp only [aset]
    by_cases h : k = k0
    · simp [h, akeys]
    · simp only [if_neg h, akeys, List.map]
      have hres := akeys_aset rest k u
      simp only [akeys] at hres
      rw [hres]

theorem alookup_aset_self {K V : Type} [DecidableEq K] :
    (l : AMap K V) → ∀ (k : K) (u w : V), alookup l k = some w →
      alookup (aset l k u) k = some u
  | [], _, _, _ => by simp [alookup]
  | (k0, v0) :: rest, k, u, w => by
    simp only [alookup, aset]
    by_cases h : k = k0
    · simp [h, alookup]
    · simp only [if_neg h, alookup]
      exact alookup_aset_self rest k u w

theorem alookup_aset_ne {K V : Type} [DecidableEq K] :
    (l : AMap K V) → ∀ (k : K) (u : V) (q : K), q ≠ k →
      alookup (aset l k u) q = alookup l q
  | [], _, _, _, _ => by simp [aset]
  | (k0, v0) :: rest, k, u, q, hqk => by
    simp only [aset]
    by_cases h : k = k0
    · subst h
      simp only [if_pos rfl, alookup, if_neg hqk]
    · simp only [if_neg h, alookup]
      by_cases hq : q = k0
      · simp [hq]
      · simp only [if_neg hq]
        exact alookup_aset_ne rest k u q hqk

theorem aset_id {K V : Type} [DecidableEq K] :
    (l : AMap K V) → ∀ (k : K) (w : V), alookup l k = some w → aset l k w = l
  | [], _, _ => by simp [aset]
  | (k0, v0) :: rest, k, w => by
    by_cases h : k = k0
    · subst h
      intro hv
      simp [alookup] at hv
      simp [aset, hv]
    · intro hv
      simp only [alookup, if_neg h] at hv
      simp only [aset, if_neg h]
      rw [aset_id rest k w hv]

theorem alookup_filter_key {K V : Type} [DecidableEq K] (p : K → Bool) :
    (l : AMap K V) → ∀ q : K,
      alookup (l.filter (fun e => p e.1)) q = if p q then alookup l q else none
  | [], q => by simp [alookup]
  | (k, v) :: rest, q => by
    have ih := alookup_filter_key p rest q
    by_cases hq : q = k
    · subst hq
      cases hp : p q with
      | true => simp [List.filter_cons, hp, alookup, ih]
      | false => simp [List.filter_cons, hp, alookup, ih]
    · cases hp : p k with
      | true => simp [List.filter_cons, hp, alookup, hq, ih]
      | false => simp [List.filter_cons, hp, alookup, hq, ih]

-- Merge-loop lemmas.

/-- Pointwise view of merging one key: keep the single present value, or
combine two present values. -/
def optComb {V : Type} (comb : V → V → Option V) : Option V → Option V → Option V
  | none, b => b
  | some w, none => some w
  | some w, some v => comb w v

theorem mergeIntoSt_cons_vacant {K V : Type} [DecidableEq K] (comb : V → V → Option V)
    (self : AMap K V) (k : K) (v : V) (rest : AMap K V)
    (hw : alookup self k = none) :
    mergeIntoSt comb self ((k, v) :: rest) = mergeIntoSt comb (self ++ [(k, v)]) rest := by
  simp only [mergeIntoSt, hw]

theorem mergeIntoSt_cons_occupied {K V : Type} [DecidableEq K] (comb : V → V → Option V)
    (self : AMap K V) (k : K) (v w u : V) (rest : AMap K V)
    (hw : alookup self k = some w) (hc : comb w v = some u) :
    mergeIntoSt comb self ((k, v) :: rest) = mergeIntoSt comb (aset self k u) rest := by
  simp only [mergeIntoSt, hw, hc]

theorem mergeIntoSt_cons_reject {K V : Type} [DecidableEq K] (comb : V → V → Option V)
    (self : AMap K V) (k : K) (v w : V) (rest : AMap K V)
    (hw : alookup self k = some w) (hc : comb w v = none) :
    mergeIntoSt comb self ((k, v) :: rest) = (some Error.mismatchedManifest, self) := by
  simp only [mergeIntoSt, hw, hc]

theorem mergeIntoSt_err {K V : Type} [DecidableEq K] (comb : V → V → Option V) :
    (other self : AMap K V) →
      (mergeIntoSt comb self other).1 = none ∨
      (mergeIntoSt comb self other).1 = some Error.mismatchedManifest
  | [], self => Or.inl rfl
  | (k, v) :: rest, self => by
    cases hw : alookup self k with
    | none =>
      rw [mergeIntoSt_cons_vacant comb self k v rest hw]
      exact mergeIntoSt_err comb rest (self ++ [(k, v)])
    | some w =>
      cases hc : comb w v with
      | some u =>
        rw [mergeIntoSt_cons_occupied comb self k v w u rest hw hc]
        exact mergeIntoSt_err comb rest (aset self k u)
      | none =>
        rw [mergeIntoSt_cons_reject comb self k v w rest hw hc]
        exact Or.inr rfl

theorem mergeIntoSt_total {K V : Type} [DecidableEq K] (comb : V → V → Option V)
    (h : ∀ w v, (comb w v).isSome) :
    (other self : AMap K V) → (mergeIntoSt comb self other).1 = none
  | [], self => rfl
  | (k, v) :: rest, self => by
    cases hw : alookup self k with
    | none =>
      rw [mergeIntoSt_cons_vacant comb self k v rest hw]
      exact mergeIntoSt_total comb h rest (self ++ [(k, v)])
    | some w =>
      cases hc : comb w v with
      | some u =>
        rw [mergeIntoSt_cons_occupied comb self k v w u rest hw hc]
        exact mergeIntoSt_total comb h rest (aset self k u)
      | none =>
        have hs := h w v
        rw [hc] at hs
        simp at hs

theorem optComb_none_right {V : Type} (comb : V → V → Option V) (a : Option V) :
    optComb comb a none = a := by cases a <;> rfl

theorem mergeIntoSt_ok_iff {K V : Type} [DecidableEq K] (comb : V → V → Option V) :
    (other self : AMap K V) → keysNodup other →
      ((mergeIntoSt comb self other).1 = none ↔
        ∀ k w v, alookup self k = some w → alookup other k = some v → (comb w v).isSome)
  | [], self, _ => by simp [mergeIntoSt, alookup]
  | (k, v) :: rest, self, hnd => by
    have hknd : k ∉ akeys rest ∧ keysNodup rest := by simpa [keysNodup, akeys] using hnd
    have hrestk : alookup rest k = none := (alookup_eq_none_iff rest k).mpr hknd.1
    cases hw : alookup self k with
    | none =>
      rw [mergeIntoSt_cons_vacant comb self k v rest hw]
      rw [mergeIntoSt_ok_iff comb rest (self ++ [(k, v)]) hknd.2]
      constructor
      · intro h k' w' v' hw' hv'
        by_cases hk : k' = k
        · subst hk
          rw [hw] at hw'
          exact absurd hw' (by simp)
        · refine h k' w' v' (alookup_append_some self _ k' w' hw') ?_
          simpa [alookup, hk] using hv'
      · intro h k' w' v' hw' hv'
        by_cases hk : k' = k
        · subst hk
          rw [hrestk] at hv'
          exact absurd hv' (by simp)
        · rw [alookup_append_single] at hw'
          cases hself : alookup self k' with
          | some w2 =>
            rw [hself] at hw'
            simp only at hw'
            refine h k' w' v' (hw' ▸ hself) ?_
            simp only [alookup, if_neg hk]
            exact hv'
          | none =>
            rw [hself] at hw'
            simp only [if_neg hk] at hw'
            exact absurd hw' (by simp)
    | some w =>
      cases hc : comb w v with
      | some u =>
        rw [mergeIntoSt_cons_occupied comb self k v w u rest hw hc]
        rw [mergeIntoSt_ok_iff comb rest (aset self k u) hknd.2]
        constructor
        · intro h k' w' v' hw' hv'
          by_cases hk : k' = k
          · subst hk
            rw [hw] at hw'
            injection hw' with hww
            subst hww
            have hvv : v = v' := by simpa [alookup] using hv'
            subst hvv
            rw [hc]
            simp
          · refine h k' w' v' ?_ ?_
            · rw [alookup_aset_ne self k u k' hk]
              exact hw'
            · simpa [alookup, hk] using hv'
        · intro h k' w' v' hw' hv'
          by_cases hk : k' = k
          · subst hk
            rw [hrestk] at hv'
            exact absurd hv' (by simp)
          · rw [alookup_aset_ne self k u k' hk] at hw'
            refine h k' w' v' hw' ?_
            simp only [alookup, if_neg hk]
            exact hv'
      | none =>
        rw [mergeIntoSt_cons_reject comb self k v w rest hw hc]
        constructor
        · intro habs
          exact absurd habs (by simp)
        · intro hAll
          have hsm := hAll k w v hw (by simp [alookup])
          rw [hc] at hsm
          exact absurd hsm (by simp)

theorem mergeIntoSt_ok_lookup {K V : Type} [DecidableEq K] (comb : V → V → Option V) :
    (other self r : AMap K V) → keysNodup other →
      mergeIntoSt comb self other = (none, r) →
      ∀ q, alookup r q = optComb comb (alookup self q) (alookup other q)
  | [], self, r, _, h, q => by
    simp only [mergeIntoSt, Prod.mk.injEq, true_and] at h
    subst h
    simp [alookup, optComb_none_right]
  | (k, v) :: rest, self, r, hnd, h, q => by
    have hknd : k ∉ akeys rest ∧ keysNodup rest := by simpa [keysNodup, akeys] using hnd
    have hrestk : alookup rest k = none := (alookup_eq_none_iff rest k).mpr hknd.1
    cases hw : alookup self k with
    | none =>
      rw [mergeIntoSt_cons_vacant comb self k v rest hw] at h
      have ih := mergeIntoSt_ok_lookup comb rest (self ++ [(k, v)]) r hknd.2 h q
      rw [ih, alookup_append_single]
      by_cases hk : q = k
      · subst hk
        rw [hw, hrestk]
        simp [alookup, optComb, optComb_none_right]
      · cases hsq : alookup self q with
        | some w2 => simp only [alookup, if_neg hk]
        | none => simp only [if_neg hk, alookup]
    | some w =>
      cases hc : comb w v with
      | some u =>
        rw [mergeIntoSt_cons_occupied comb self k v w u rest hw hc] at h
        have ih := mergeIntoSt_ok_lookup comb rest (aset self k u) r hknd.2 h q
        rw [ih]
        by_cases hk : q = k
        · rw [hk]
          rw [alookup_aset_self self k u w hw, hrestk, hw]
          simp [alookup, optComb, optComb_none_right, hc]
        · rw [alookup_aset_ne self k u q hk]
          simp only [alookup, if_neg hk]
      | none =>
        rw [mergeIntoSt_cons_reject comb self k v w rest hw hc] at h
        simp at h

theorem mergeIntoSt_nodup {K V : Type} [DecidableEq K] (comb : V → V → Option V) :
    (other self : AMap K V) → keysNodup self → keysNodup other →
      keysNodup (mergeIntoSt comb self other).2
  | [], self, hs, _ => hs
  | (k, v) :: rest, self, hs, hnd => by
    have hknd : k ∉ akeys rest ∧ keysNodup rest := by simpa [keysNodup, akeys] using hnd
    cases hw : alookup self k with
    | none =>
      rw [mergeIntoSt_cons_vacant comb self k v rest hw]
      refine mergeIntoSt_nodup comb rest (self ++ [(k, v)]) ?_ hknd.2
      have hk : k ∉ akeys self := (alookup_eq_none_iff self k).mp hw
      unfold keysNodup
      rw [show akeys (self ++ [(k, v)]) = akeys self ++ [k] from by simp [akeys]]
      rw [List.nodup_append]
      refine ⟨hs, List.nodup_singleton k, ?_⟩
      intro a ha hb
      simp at hb
      subst hb
      exact hk ha
    | some w =>
      cases hc : comb w v with
      | some u =>
        rw [mergeIntoSt_cons_occupied comb self k v w u rest hw hc]
        refine mergeIntoSt_nodup comb rest (aset self k u) ?_ hknd.2
        unfold keysNodup
        have hres := akeys_aset self k u
        rw [hres]
        exact hs
      | none =>
        rw [mergeIntoSt_cons_reject comb self k v w rest hw hc]
        exact hs

theorem combOf_keepLeft_some {V : Type} (p : V → V → Bool) (w v u : V)
    (h : combOf p (fun a _ => a) w v = some u) : u = w ∧ p w v = true := by
  simp only [combOf] at h
  by_cases hp : p w v = true
  · rw [if_pos hp] at h
    injection h with h'
    exact ⟨h'.symm, hp⟩
  · rw [if_neg hp] at h
    exact absurd h (by simp)

theorem mergeIntoSt_keepLeft {K V : Type} [DecidableEq K] (p : V → V → Bool) :
    (other self r : AMap K V) → keysNodup other →
      mergeIntoSt (combOf p (fun a _ => a)) self other = (none, r) →
      r = self ++ other.filter (fun e => (alookup self e.1).isNone)
  | [], self, r, _, h => by
    simp only [mergeIntoSt, Prod.mk.injEq, true_and] at h
    subst h
    simp
  | (k, v) :: rest, self, r, hnd, h => by
    have hknd : k ∉ akeys rest ∧ keysNodup rest := by simpa [keysNodup, akeys] using hnd
    cases hw : alookup self k with
    | none =>
      rw [mergeIntoSt_cons_vacant _ self k v rest hw] at h
      have ih := mergeIntoSt_keepLeft p rest (self ++ [(k, v)]) r hknd.2 h
      rw [ih, List.filter_cons]
      simp only [hw, Option.isNone_none, if_pos]
      rw [List.append_assoc, List.singleton_append]
      congr 1
      congr 1
      apply List.filter_congr
      intro e he
      have hek : e.1 ≠ k := by
        intro hek
        exact hknd.1 (hek ▸ List.mem_map_of_mem Prod.fst he)
      rw [alookup_append_single]
      cases hse : alookup self e.1 with
      | some w2 => rfl
      | none => simp [hek]
    | some w =>
      cases hc : combOf p (fun a _ => a) w v with
      | some u =>
        obtain ⟨hu, hp⟩ := combOf_keepLeft_some p w v u hc
        rw [hu] at hc
        rw [mergeIntoSt_cons_occupied _ self k v w w rest hw hc] at h
        rw [aset_id self k w hw] at h
        have ih := mergeIntoSt_keepLeft p rest self r hknd.2 h
        rw [ih, List.filter_cons]
        simp [hw]
      | none =>
        rw [mergeIntoSt_cons_reject _ self k v w rest hw hc] at h
        simp at h

theorem optComb_assoc {V : Type} (comb : V → V → Option V)
    (hasc : ∀ x y z xy yz, comb x y = some xy → comb y z = some yz →
      comb xy z = comb x yz)
    (a b c : Option V)
    (s1 : ∀ x y, a = some x → b = some y → (comb x y).isSome)
    (s3 : ∀ y z, b = some y → c = some z → (comb y z).isSome) :
    optComb comb (optComb comb a b) c = optComb comb a (optComb comb b c) := by
  cases a with
  | none => simp [optComb]
  | some x =>
    cases b with
    | none => simp [optComb]
    | some y =>
      obtain ⟨u, hu⟩ := Option.isSome_iff_exists.mp (s1 x y rfl rfl)
      cases c with
      | none => rw [optComb_none_right, optComb_none_right]
      | some z =>
        obtain ⟨t, ht⟩ := Option.isSome_iff_exists.mp (s3 y z rfl rfl)
        have h1 : optComb comb (optComb comb (some x) (some y)) (some z) = comb u z := by
          simp [optComb, hu]
        have h2 : optComb comb (some x) (optComb comb (some y) (some z)) = comb x t := by
          simp [optComb, ht]
        rw [h1, h2]
        exact hasc x y z u t hu ht

theorem combOf_keepLeft_assoc {V : Type} (p : V → V → Bool)
    (ptrans : ∀ x y z, p x y = true → p y z = true → p x z = true) :
    ∀ x y z xy yz, combOf p (fun a _ => a) x y = some xy →
      combOf p (fun a _ => a) y z = some yz →
      combOf p (fun a _ => a) xy z = combOf p (fun a _ => a) x yz := by
  intro x y z xy yz hxy hyz
  obtain ⟨hxy1, hxy2⟩ := combOf_keepLeft_some p x y xy hxy
  obtain ⟨hyz1, hyz2⟩ := combOf_keepLeft_some p y z yz hyz
  rw [hxy1, hyz1]
  simp only [combOf]
  rw [if_pos (ptrans x y z hxy2 hyz2), if_pos hxy2]

theorem accessType_or_assoc : ∀ a b c : AccessType, (a.or b).or c = a.or (b.or c) := by
  intro a b c
  cases a <;> cases b <;> cases c <;> decide

theorem accComb_assoc : ∀ x y z xy yz : AccessType, accComb x y = some xy →
    accComb y z = some yz → accComb xy z = accComb x yz := by
  intro x y z xy yz hxy hyz
  simp only [accComb, combOf, if_pos] at hxy hyz ⊢
  injection hxy with hxy
  injection hyz with hyz
  rw [← hxy, ← hyz, accessType_or_assoc]

theorem descComb_assoc : ∀ x y z xy yz : DescriptorType, descComb x y = some xy →
    descComb y z = some yz → descComb xy z = descComb x yz := by
  intro x y z xy yz hxy hyz
  exact combOf_keepLeft_assoc (fun (a b : DescriptorType) => descHash a == descHash b)
    (fun a b c hab hbc => by
      simp only [beq_iff_eq] at hab hbc ⊢
      exact hab.trans hbc) x y z xy yz hxy hyz

theorem nameComb_assoc : ∀ x y z xy yz : ResourceLocator, nameComb x y = some xy →
    nameComb y z = some yz → nameComb xy z = nameComb x yz := by
  intro x y z xy yz hxy hyz
  exact combOf_keepLeft_assoc (fun (a b : ResourceLocator) => a == b)
    (fun a b c hab hbc => by
      simp only [beq_iff_eq] at hab hbc ⊢
      exact hab.trans hbc) x y z xy yz hxy hyz

theorem memberComb_assoc : ∀ x y z xy yz : Option String × Ty, memberComb x y = some xy →
    memberComb y z = some yz → memberComb xy z = memberComb x yz := by
  intro x y z xy yz hxy hyz
  exact combOf_keepLeft_assoc (fun (a b : Option String × Ty) => a.2 == b.2)
    (fun a b c hab hbc => by
      simp only [beq_iff_eq] at hab hbc ⊢
      exact hab.trans hbc) x y z xy yz hxy hyz

theorem mergePC_err (a o : Option Ty) :
    (mergePC a o).1 = none ∨ (mergePC a o).1 = some Error.mismatchedManifest := by
  cases hsa : asStruct a with
  | none => simp [mergePC, hsa]
  | some pr =>
    obtain ⟨n, ms⟩ := pr
    cases hso : asStruct o with
    | none => simp [mergePC, hsa, hso]
    | some pr2 =>
      obtain ⟨n2, ms2⟩ := pr2
      have herr := mergeIntoSt_err memberComb ms2.toList ms.toList
      cases hm : mergeIntoSt memberComb ms.toList ms2.toList with
      | mk e r =>
        rw [hm] at herr
        cases e with
        | none => simp [mergePC, hsa, hso, hm]
        | some e' =>
          simp only at herr
          rcases herr with h | h
          · exact absurd h (by simp)
          · simp only [Option.some.injEq] at h
            simp [mergePC, hsa, hso, hm, h]

theorem mergeRun_unfold (A B : Manifest) :
    Manifest.mergeRun A B =
      match mergePC A.push_const_ty B.push_const_ty with
      | (some e, pc) =>
        (some e, { A with output_map := B.output_map, push_const_ty := pc })
      | (none, pc) =>
        match mergeIntoSt descComb A.desc_map B.desc_map with
        | (some e, d) =>
          (some e, { A with output_map := B.output_map, push_const_ty := pc, desc_map := d })
        | (none, d) =>
          match mergeIntoSt nameComb A.var_name_map B.var_name_map with
          | (some e, nm) =>
            (some e, { A with output_map := B.output_map, push_const_ty := pc, desc_map := d, var_name_map := nm })
          | (none, nm) =>
            match mergeIntoSt accComb A.desc_access_map B.desc_access_map with
            | (some e, am) =>
              (some e, { A with output_map := B.output_map, push_const_ty := pc, desc_map := d, var_name_map := nm, desc_access_map := am })
            | (none, am) =>
              (none, { A with output_map := B.output_map, push_const_ty := pc, desc_map := d, var_name_map := nm, desc_access_map := am }) := rfl

theorem mergeRun_fields (A B : Manifest) :
    (Manifest.mergeRun A B).2.input_map = A.input_map ∧
    (Manifest.mergeRun A B).2.output_map = B.output_map ∧
    ((Manifest.mergeRun A B).1 = none ∨
      (Manifest.mergeRun A B).1 = some Error.mismatchedManifest) ∧
    ((Manifest.mergeRun A B).1 = none →
      mergePC A.push_const_ty B.push_const_ty
        = (none, (Manifest.mergeRun A B).2.push_const_ty) ∧
      mergeIntoSt descComb A.desc_map B.desc_map
        = (none, (Manifest.mergeRun A B).2.desc_map) ∧
      mergeIntoSt nameComb A.var_name_map B.var_name_map
        = (none, (Manifest.mergeRun A B).2.var_name_map) ∧
      mergeIntoSt accComb A.desc_access_map B.desc_access_map
        = (none, (Manifest.mergeRun A B).2.desc_access_map)) := by
  rw [mergeRun_unfold]
  have hpcerr := mergePC_err A.push_const_ty B.push_const_ty
  have hderr := mergeIntoSt_err descComb B.desc_map A.desc_map
  have hnerr := mergeIntoSt_err nameComb B.var_name_map A.var_name_map
  cases hpc : mergePC A.push_const_ty B.push_const_ty with
  | mk e1 pc =>
    rw [hpc] at hpcerr
    cases e1 with
    | some e =>
      simp only at hpcerr
      rcases hpcerr with h | h
      · exact absurd h (by simp)
      · simp only [Option.some.injEq] at h
        subst h
        refine ⟨by simp, by simp, by simp, by simp⟩
    | none =>
      cases hd : mergeIntoSt descComb A.desc_map B.desc_map with
      | mk e2 d =>
        rw [hd] at hderr
        cases e2 with
        | some e =>
          simp only at hderr
          rcases hderr with h | h
          · exact absurd h (by simp)
          · simp only [Option.some.injEq] at h
            subst h
            refine ⟨by simp, by simp, by simp, by simp⟩
        | none =>
          cases hn : mergeIntoSt nameComb A.var_name_map B.var_name_map with
          | mk e3 nm =>
            rw [hn] at hnerr
            cases e3 with
            | some e =>
              simp only at hnerr
              rcases hnerr with h | h
              · exact absurd h (by simp)
              · simp only [Option.some.injEq] at h
                subst h
                refine ⟨by simp, by simp, by simp, by simp⟩
            | none =>
              cases ha : mergeIntoSt accComb A.desc_access_map B.desc_access_map with
              | mk e4 am =>
                cases e4 with
                | some e =>
                  have htot := mergeIntoSt_total accComb
                    (fun w v => by simp [accComb, combOf])
                    B.desc_access_map A.desc_access_map
                  rw [ha] at htot
                  exact absurd htot (by simp)
                | none =>
                  refine ⟨by simp, by simp, by simp, fun _ => ⟨by simp, by simp, by simp, by simp⟩⟩

/-- C2, counterexample: a merge that fails with MismatchedManifest (a
name bound to divergent locators) leaves the destination changed — its
output map has already been replaced. -/
theorem c2_counterexample :
    (Manifest.mergeRun
      ⟨none, [], [((9, 9), Ty.scalarBool)], [], [("foo", ResourceLocator.input (0, 0))], []⟩
      ⟨none, [], [], [], [("foo", ResourceLocator.output (0, 0))], []⟩).1
      = some Error.mismatchedManifest ∧
    (Manifest.mergeRun
      ⟨none, [], [((9, 9), Ty.scalarBool)], [], [("foo", ResourceLocator.input (0, 0))], []⟩
      ⟨none, [], [], [], [("foo", ResourceLocator.output (0, 0))], []⟩).2
      ≠ ⟨none, [], [((9, 9), Ty.scalarBool)], [], [("foo", ResourceLocator.input (0, 0))], []⟩ := by
  decide

/-- C2, amended: when merge fails, the destination manifest is not left
untouched in general — its input map is still intact, but its output map
has already been replaced wholesale by the other manifest's (and the
remaining maps may have been partially merged). -/
theorem c2_merge_error_frame (A B : Manifest) (e : Error) (M : Manifest)
    (h : Manifest.mergeRun A B = (some e, M)) :
    M.input_map = A.input_map ∧ M.output_map = B.output_map := by
  have hf := mergeRun_fields A B
  rw [h] at hf
  exact ⟨hf.1, hf.2.1⟩

/-- C2, witness for the amended theorem at the counterexample input. -/
theorem c2_merge_error_frame_witness :
    (⟨none, [], [], [], [("foo", ResourceLocator.input (0, 0))], []⟩ : Manifest).input_map
      = ([] : AMap InterfaceLocation Ty) ∧
    (⟨none, [], [], [], [("foo", ResourceLocator.input (0, 0))], []⟩ : Manifest).output_map
      = ([] : AMap InterfaceLocation Ty) := by
  have h := c2_merge_error_frame
    ⟨none, [], [((9, 9), Ty.scalarBool)], [], [("foo", ResourceLocator.input (0, 0))], []⟩
    ⟨none, [], [], [], [("foo", ResourceLocator.output (0, 0))], []⟩
    Error.mismatchedManifest
    ⟨none, [], [], [], [("foo", ResourceLocator.input (0, 0))], []⟩
    (by decide)
  exact ⟨h.1.trans (by decide), h.2⟩

/-- C5: after a successful merge the destination's input map is
unchanged and its output map equals the other manifest's output map. -/
theorem c5_merge_success_io (A B M : Manifest) (h : Manifest.mergeRun A B = (none, M)) :
    M.input_map = A.input_map ∧ M.output_map = B.output_map := by
  have hf := mergeRun_fields A B
  rw [h] at hf
  exact ⟨hf.1, hf.2.1⟩

/-- C5, witness: a successful concrete merge keeps the destination's
inputs and takes the other's outputs. -/
theorem c5_merge_success_io_witness :
    (⟨none, [((1, 0), Ty.scalarBool)], [((3, 0), Ty.samplerTy)], [], [], []⟩
        : Manifest).input_map
      = (⟨none, [((1, 0), Ty.scalarBool)], [((2, 0), Ty.scalarFloat 32)], [], [], []⟩
        : Manifest).input_map ∧
    (⟨none, [((1, 0), Ty.scalarBool)], [((3, 0), Ty.samplerTy)], [], [], []⟩
        : Manifest).output_map
      = (⟨none, [((7, 7), Ty.image)], [((3, 0), Ty.samplerTy)], [], [], []⟩
        : Manifest).output_map :=
  c5_merge_success_io
    ⟨none, [((1, 0), Ty.scalarBool)], [((2, 0), Ty.scalarFloat 32)], [], [], []⟩
    ⟨none, [((7, 7), Ty.image)], [((3, 0), Ty.samplerTy)], [], [], []⟩
    ⟨none, [((1, 0), Ty.scalarBool)], [((3, 0), Ty.samplerTy)], [], [], []⟩
    (by decide)

theorem descComb_isSome_iff (w v : DescriptorType) :
    (descComb w v).isSome = true ↔ descHash w = descHash v := by
  by_cases h : descHash w = descHash v <;> simp [descComb, combOf, h]

/-- C6: merging descriptors unions the two maps keyed by binding, keeping
the destination's entry at a collision; the descriptor step succeeds
exactly when every shared binding carries hash-equal descriptor types,
and a hash mismatch at any shared binding makes the whole merge return
MismatchedManifest. -/
theorem c6_merge_descs_union_conflict (A B : Manifest) (hnd : keysNodup B.desc_map) :
    ((mergeIntoSt descComb A.desc_map B.desc_map).1 = none ↔
      ∀ k tA tB, alookup A.desc_map k = some tA → alookup B.desc_map k = some tB →
        descHash tA = descHash tB) ∧
    (∀ M, Manifest.mergeRun A B = (none, M) →
      ∀ k, alookup M.desc_map k
        = match alookup A.desc_map k with
          | some tA => some tA
          | none => alookup B.desc_map k) ∧
    (∀ k tA tB, alookup A.desc_map k = some tA → alookup B.desc_map k = some tB →
      descHash tA ≠ descHash tB →
      (Manifest.mergeRun A B).1 = some Error.mismatchedManifest) := by
  have hiff := mergeIntoSt_ok_iff descComb B.desc_map A.desc_map hnd
  refine ⟨?_, ?_, ?_⟩
  · rw [hiff]
    constructor
    · intro h k tA tB hA hB
      exact (descComb_isSome_iff tA tB).mp (h k tA tB hA hB)
    · intro h k tA tB hA hB
      exact (descComb_isSome_iff tA tB).mpr (h k tA tB hA hB)
  · intro M hM k
    have hf := (mergeRun_fields A B).2.2.2
    rw [hM] at hf
    have hd := (hf rfl).2.1
    have hlk := mergeIntoSt_ok_lookup descComb B.desc_map A.desc_map M.desc_map hnd hd k
    rw [hlk]
    cases hA : alookup A.desc_map k with
    | none => rfl
    | some tA =>
      cases hB : alookup B.desc_map k with
      | none => rfl
      | some tB =>
        have hok : (mergeIntoSt descComb A.desc_map B.desc_map).1 = none := by
          rw [hd]
        have hhash : descHash tA = descHash tB :=
          (descComb_isSome_iff tA tB).mp ((hiff.mp hok) k tA tB hA hB)
        have hcomb : descComb tA tB = some tA := by
          simp [descComb, combOf, hhash]
        simp [optComb, hcomb]
  · intro k tA tB hA hB hne
    have hfail : (mergeIntoSt descComb A.desc_map B.desc_map).1 ≠ none := by
      intro hok
      exact hne ((descComb_isSome_iff tA tB).mp ((hiff.mp hok) k tA tB hA hB))
    have hf := mergeRun_fields A B
    rcases hf.2.2.1 with h | h
    · exfalso
      have hd := (hf.2.2.2 h).2.1
      apply hfail
      rw [hd]
    · exact h

/-- C6, witness: two descriptor types with different structural hashes at
the same binding make the merge fail with MismatchedManifest. -/
theorem c6_merge_descs_union_conflict_witness :
    (Manifest.mergeRun
      ⟨none, [], [], [((0, 0), DescriptorType.uniformBuffer Ty.scalarBool)], [], []⟩
      ⟨none, [], [], [((0, 0), DescriptorType.storageBuffer Ty.scalarBool)], [], []⟩).1
      = some Error.mismatchedManifest :=
  (c6_merge_descs_union_conflict
    ⟨none, [], [], [((0, 0), DescriptorType.uniformBuffer Ty.scalarBool)], [], []⟩
    ⟨none, [], [], [((0, 0), DescriptorType.storageBuffer Ty.scalarBool)], [], []⟩
    (by simp [keysNodup, akeys])).2.2 (0, 0)
    (DescriptorType.uniformBuffer Ty.scalarBool)
    (DescriptorType.storageBuffer Ty.scalarBool)
    (by decide) (by decide) (by decide)

/-- C7: every AccessType discriminant is 1, 2 or 3 — never 0 and never
above 3 — converting the bitwise OR of two discriminants back through
from_u32 always succeeds with discriminant equal to that OR, the access
merge loop never fails, and a successful merge stores the OR of the two
access values at every shared binding. -/
theorem c7_access_or_closed :
    (∀ a : AccessType, a.toNat = 1 ∨ a.toNat = 2 ∨ a.toNat = 3) ∧
    (∀ a b : AccessType, AccessType.fromNat (a.toNat ||| b.toNat) = some (a.or b) ∧
      (a.or b).toNat = a.toNat ||| b.toNat) ∧
    (∀ self other : AMap DescriptorBinding AccessType,
      (mergeIntoSt accComb self other).1 = none) ∧
    (∀ A B M, keysNodup B.desc_access_map → Manifest.mergeRun A B = (none, M) →
      ∀ k a b, alookup A.desc_access_map k = some a →
        alookup B.desc_access_map k = some b →
        alookup M.desc_access_map k = some (a.or b)) := by
  refine ⟨?_, ?_, ?_, ?_⟩
  · intro a
    cases a <;> decide
  · intro a b
    cases a <;> cases b <;> decide
  · intro self other
    exact mergeIntoSt_total accComb (fun w v => by simp [accComb, combOf]) other self
  · intro A B M hnd hM k a b ha hb
    have hf := (mergeRun_fields A B).2.2.2
    rw [hM] at hf
    have hacc := (hf rfl).2.2.2
    have hlk := mergeIntoSt_ok_lookup accComb B.desc_access_map A.desc_access_map
      M.desc_access_map hnd hacc k
    rw [hlk, ha, hb]
    simp [optComb, accComb, combOf]

/-- C7, witness: merging read-only with write-only access at a shared
binding stores read-write. -/
theorem c7_access_or_closed_witness :
    alookup (⟨none, [], [], [], [], [((0, 0), AccessType.readWrite)]⟩
        : Manifest).desc_access_map (0, 0)
      = some (AccessType.or AccessType.readOnly AccessType.writeOnly) :=
  c7_access_or_closed.2.2.2
    ⟨none, [], [], [], [], [((0, 0), AccessType.readOnly)]⟩
    ⟨none, [], [], [], [], [((0, 0), AccessType.writeOnly)]⟩
    ⟨none, [], [], [], [], [((0, 0), AccessType.readWrite)]⟩
    (by simp [keysNodup, akeys]) (by decide) (0, 0) AccessType.readOnly AccessType.writeOnly
    (by decide) (by decide)

theorem keepLeft_union_assoc {K V : Type} [DecidableEq K] (A B C : AMap K V) :
    (A ++ B.filter (fun e => (alookup A e.1).isNone))
        ++ C.filter (fun e =>
          (alookup (A ++ B.filter (fun e => (alookup A e.1).isNone)) e.1).isNone)
      = A ++ (B ++ C.filter (fun e => (alookup B e.1).isNone)).filter
          (fun e => (alookup A e.1).isNone) := by
  rw [List.append_assoc, List.filter_append]
  congr 1
  congr 1
  rw [List.filter_filter]
  apply List.filter_congr
  intro e he
  cases hA : alookup A e.1 with
  | some w =>
    have hup : alookup (A ++ B.filter (fun e => (alookup A e.1).isNone)) e.1 = some w :=
      alookup_append_some A _ e.1 w hA
    simp [hup, hA]
  | none =>
    have hup : alookup (A ++ B.filter (fun e => (alookup A e.1).isNone)) e.1
        = alookup (B.filter (fun e => (alookup A e.1).isNone)) e.1 :=
      alookup_append_none A _ e.1 hA
    rw [hup, alookup_filter_key (fun k => (alookup A k).isNone) B e.1]
    simp [hA]

/-- Well-formedness of a push-constant type: a struct has no two members
at the same offset. -/
def pcWF (a : Option Ty) : Prop :=
  match asStruct a with
  | some (_, ms) => keysNodup ms.toList
  | none => True

theorem asStruct_structTy (n : Option String) (ms : Members) :
    asStruct (some (Ty.structTy n ms)) = some (n, ms) := rfl

theorem mergePC_assoc (a b c ab bc l r : Option Ty)
    (wfb : pcWF b) (wfc : pcWF c)
    (hab : mergePC a b = (none, ab)) (hbc : mergePC b c = (none, bc))
    (hl : mergePC ab c = (none, l)) (hr : mergePC a bc = (none, r)) : l = r := by
  cases hsa : asStruct a with
  | none =>
    simp only [mergePC, hsa, Prod.mk.injEq, true_and] at hab hr
    rw [← hab] at hl
    rw [hbc] at hl
    simp only [Prod.mk.injEq, true_and] at hl
    rw [← hl, ← hr]
  | some pra =>
    obtain ⟨n, ms⟩ := pra
    cases hsb : asStruct b with
    | none =>
      simp only [mergePC, hsa, hsb, Prod.mk.injEq, true_and] at hab hbc
      rw [← hab] at hl
      rw [← hbc] at hr
      rw [hl] at hr
      simp only [Prod.mk.injEq, true_and] at hr
      exact hr
    | some prb =>
      obtain ⟨n2, ms2⟩ := prb
      have wfb' : keysNodup ms2.toList := by
        simpa [pcWF, hsb] using wfb
      simp only [mergePC, hsa, hsb] at hab
      cases h12 : mergeIntoSt memberComb ms.toList ms2.toList with
      | mk e12 r12 =>
        rw [h12] at hab
        cases e12 with
        | some e => simp at hab
        | none =>
          simp only [Prod.mk.injEq, true_and] at hab
          cases hsc : asStruct c with
          | none =>
            simp only [mergePC, hsb, hsc, Prod.mk.injEq, true_and] at hbc
            rw [← hab] at hl
            simp only [mergePC, asStruct_structTy, hsc, Prod.mk.injEq, true_and] at hl
            rw [← hbc] at hr
            simp only [mergePC, hsa, hsb] at hr
            rw [h12] at hr
            simp only [Prod.mk.injEq, true_and] at hr
            rw [← hl, ← hr, hab]
          | some prc =>
            obtain ⟨n3, ms3⟩ := prc
            have wfc' : keysNodup ms3.toList := by
              simpa [pcWF, hsc] using wfc
            simp only [mergePC, hsb, hsc] at hbc
            cases h23 : mergeIntoSt memberComb ms2.toList ms3.toList with
            | mk e23 r23 =>
              rw [h23] at hbc
              cases e23 with
              | some e => simp at hbc
              | none =>
                simp only [Prod.mk.injEq, true_and] at hbc
                rw [← hab] at hl
                simp only [mergePC, asStruct_structTy, hsc] at hl
                rw [Members.toList_ofList] at hl
                cases hL : mergeIntoSt memberComb r12 ms3.toList with
                | mk eL rL =>
                  rw [hL] at hl
                  cases eL with
                  | some e => simp at hl
                  | none =>
                    simp only [Prod.mk.injEq, true_and] at hl
                    rw [← hbc] at hr
                    simp only [mergePC, hsa, asStruct_structTy] at hr
                    rw [Members.toList_ofList] at hr
                    cases hR : mergeIntoSt memberComb ms.toList r23 with
                    | mk eR rR =>
                      rw [hR] at hr
                      cases eR with
                      | some e => simp at hr
                      | none =>
                        simp only [Prod.mk.injEq, true_and] at hr
                        have hndr23 : keysNodup r23 := by
                          have hres := mergeIntoSt_nodup memberComb ms3.toList
                            ms2.toList wfb' wfc'
                          rw [h23] at hres
                          exact hres
                        have hs12 := mergeIntoSt_keepLeft (fun (x y : Option String × Ty) =>
                          x.2 == y.2) ms2.toList ms.toList r12 wfb' h12
                        have hs23 := mergeIntoSt_keepLeft (fun (x y : Option String × Ty) =>
                          x.2 == y.2) ms3.toList ms2.toList r23 wfc' h23
                        have hsL := mergeIntoSt_keepLeft (fun (x y : Option String × Ty) =>
                          x.2 == y.2) ms3.toList r12 rL wfc' hL
                        have hsR := mergeIntoSt_keepLeft (fun (x y : Option String × Ty) =>
                          x.2 == y.2) r23 ms.toList rR hndr23 hR
                        have hkey : rL = rR := by
                          rw [hsL, hsR, hs12, hs23]
                          exact keepLeft_union_assoc ms.toList ms2.toList ms3.toList
                        rw [← hl, ← hr, hkey]

theorem merge_maps_assoc {K V : Type} [DecidableEq K] (comb : V → V → Option V)
    (hasc : ∀ x y z xy yz, comb x y = some xy → comb y z = some yz →
      comb xy z = comb x yz)
    (fA fB fC fAB fBC fL fR : AMap K V)
    (hndB : keysNodup fB) (hndC : keysNodup fC) (hndBC : keysNodup fBC)
    (hab : mergeIntoSt comb fA fB = (none, fAB))
    (hbc : mergeIntoSt comb fB fC = (none, fBC))
    (hl : mergeIntoSt comb fAB fC = (none, fL))
    (hr : mergeIntoSt comb fA fBC = (none, fR)) :
    ∀ q, alookup fL q = alookup fR q := by
  intro q
  have hAB := mergeIntoSt_ok_lookup comb fB fA fAB hndB hab q
  have hBC := mergeIntoSt_ok_lookup comb fC fB fBC hndC hbc q
  have hL := mergeIntoSt_ok_lookup comb fC fAB fL hndC hl q
  have hR := mergeIntoSt_ok_lookup comb fBC fA fR hndBC hr q
  rw [hL, hR, hAB, hBC]
  apply optComb_assoc comb hasc
  · intro x y hx hy
    exact (mergeIntoSt_ok_iff comb fB fA hndB).mp (by rw [hab]) q x y hx hy
  · intro y z hy hz
    exact (mergeIntoSt_ok_iff comb fC fB hndC).mp (by rw [hbc]) q y z hy hz

/-- Well-formedness of a manifest: each HashMap-backed field has no
duplicate keys and the push-constant struct has no duplicate member
offsets. -/
def Manifest.WF (m : Manifest) : Prop :=
  pcWF m.push_const_ty ∧ keysNodup m.desc_map ∧ keysNodup m.var_name_map ∧
    keysNodup m.desc_access_map

/-- Observational equality of manifests: equal push-constant types, equal
interface maps and pointwise-equal lookups on the HashMap-backed fields,
which is exactly HashMap equality. -/
def Manifest.Equiv (m1 m2 : Manifest) : Prop :=
  m1.push_const_ty = m2.push_const_ty ∧
  m1.input_map = m2.input_map ∧
  m1.output_map = m2.output_map ∧
  (∀ k, alookup m1.desc_map k = alookup m2.desc_map k) ∧
  (∀ k, alookup m1.var_name_map k = alookup m2.var_name_map k) ∧
  (∀ k, alookup m1.desc_access_map k = alookup m2.desc_access_map k)

/-- C9: merge is associative under conflict-free composition — when all
four merges succeed, merging A with (B merged with C) and merging
(A merged with B) with C produce the same manifest. -/
theorem c9_merge_assoc (A B C AB BC L R : Manifest)
    (wfB : Manifest.WF B) (wfC : Manifest.WF C)
    (hab : Manifest.mergeRun A B = (none, AB))
    (hbc : Manifest.mergeRun B C = (none, BC))
    (hl : Manifest.mergeRun AB C = (none, L))
    (hr : Manifest.mergeRun A BC = (none, R)) :
    Manifest.Equiv L R := by
  have fab := (mergeRun_fields A B).2.2.2
  rw [hab] at fab
  have fab := fab rfl
  have fbc := (mergeRun_fields B C).2.2.2
  rw [hbc] at fbc
  have fbc := fbc rfl
  have fl := (mergeRun_fields AB C).2.2.2
  rw [hl] at fl
  have fl := fl rfl
  have fr := (mergeRun_fields A BC).2.2.2
  rw [hr] at fr
  have fr := fr rfl
  have habio := mergeRun_fields A B
  rw [hab] at habio
  have hbcio := mergeRun_fields B C
  rw [hbc] at hbcio
  have hlio := mergeRun_fields AB C
  rw [hl] at hlio
  have hrio := mergeRun_fields A BC
  rw [hr] at hrio
  have hndBCd : keysNodup BC.desc_map := by
    have hres := mergeIntoSt_nodup descComb C.desc_map B.desc_map wfB.2.1 wfC.2.1
    rw [fbc.2.1] at hres
    exact hres
  have hndBCn : keysNodup BC.var_name_map := by
    have hres := mergeIntoSt_nodup nameComb C.var_name_map B.var_name_map
      wfB.2.2.1 wfC.2.2.1
    rw [fbc.2.2.1] at hres
    exact hres
  have hndBCa : keysNodup BC.desc_access_map := by
    have hres := mergeIntoSt_nodup accComb C.desc_access_map B.desc_access_map
      wfB.2.2.2 wfC.2.2.2
    rw [fbc.2.2.2] at hres
    exact hres
  refine ⟨?_, ?_, ?_, ?_, ?_, ?_⟩
  · exact mergePC_assoc A.push_const_ty B.push_const_ty C.push_const_ty
      AB.push_const_ty BC.push_const_ty L.push_const_ty R.push_const_ty
      wfB.1 wfC.1 fab.1 fbc.1 fl.1 fr.1
  · rw [hlio.1, hrio.1, habio.1]
  · rw [hlio.2.1, hrio.2.1, hbcio.2.1]
  · exact merge_maps_assoc descComb descComb_assoc
      A.desc_map B.desc_map C.desc_map AB.desc_map BC.desc_map L.desc_map R.desc_map
      wfB.2.1 wfC.2.1 hndBCd fab.2.1 fbc.2.1 fl.2.1 fr.2.1
  · exact merge_maps_assoc nameComb nameComb_assoc
      A.var_name_map B.var_name_map C.var_name_map AB.var_name_map BC.var_name_map
      L.var_name_map R.var_name_map
      wfB.2.2.1 wfC.2.2.1 hndBCn fab.2.2.1 fbc.2.2.1 fl.2.2.1 fr.2.2.1
  · exact merge_maps_assoc accComb accComb_assoc
      A.desc_access_map B.desc_access_map C.desc_access_map AB.desc_access_map
      BC.desc_access_map L.desc_access_map R.desc_access_map
      wfB.2.2.2 wfC.2.2.2 hndBCa fab.2.2.2 fbc.2.2.2 fl.2.2.2 fr.2.2.2

/-- C9, witness: three concrete manifests with a shared push-constant
block, a shared descriptor and a shared access flag compose
associatively. -/
theorem c9_merge_assoc_witness :
    Manifest.Equiv
      ⟨(some (Ty.structTy (some "pc") (Members.cons 0 (some "x") (Ty.scalarFloat 32) (Members.cons 4 (some "y") (Ty.scalarFloat 32) Members.nil)))), [((0, 0), Ty.scalarBool)], [((3, 0), Ty.scalarBool)], [((0, 1), (DescriptorType.uniformBuffer Ty.scalarBool)), ((0, 2), (DescriptorType.storageBuffer Ty.scalarBool))], [("a", ResourceLocator.input (0, 0)), ("b", ResourceLocator.descriptor (0, 2))], [((0, 1), AccessType.readWrite), ((0, 2), AccessType.writeOnly)]⟩
      ⟨(some (Ty.structTy (some "pc") (Members.cons 0 (some "x") (Ty.scalarFloat 32) (Members.cons 4 (some "y") (Ty.scalarFloat 32) Members.nil)))), [((0, 0), Ty.scalarBool)], [((3, 0), Ty.scalarBool)], [((0, 1), (DescriptorType.uniformBuffer Ty.scalarBool)), ((0, 2), (DescriptorType.storageBuffer Ty.scalarBool))], [("a", ResourceLocator.input (0, 0)), ("b", ResourceLocator.descriptor (0, 2))], [((0, 1), AccessType.readWrite), ((0, 2), AccessType.writeOnly)]⟩ :=
  c9_merge_assoc
    ⟨(some (Ty.structTy (some "pc") (Members.cons 0 (some "x") (Ty.scalarFloat 32) Members.nil))), [((0, 0), Ty.scalarBool)], [((1, 0), Ty.scalarBool)], [((0, 1), (DescriptorType.uniformBuffer Ty.scalarBool))], [("a", ResourceLocator.input (0, 0))], [((0, 1), AccessType.readOnly)]⟩
    ⟨(some (Ty.structTy (some "pc") (Members.cons 4 (some "y") (Ty.scalarFloat 32) Members.nil))), [], [((2, 0), Ty.scalarBool)], [((0, 2), (DescriptorType.storageBuffer Ty.scalarBool))], [("b", ResourceLocator.descriptor (0, 2))], [((0, 2), AccessType.writeOnly)]⟩
    ⟨none, [], [((3, 0), Ty.scalarBool)], [((0, 1), (DescriptorType.uniformBuffer Ty.scalarBool))], [("a", ResourceLocator.input (0, 0))], [((0, 1), AccessType.writeOnly)]⟩
    ⟨(some (Ty.structTy (some "pc") (Members.cons 0 (some "x") (Ty.scalarFloat 32) (Members.cons 4 (some "y") (Ty.scalarFloat 32) Members.nil)))), [((0, 0), Ty.scalarBool)], [((2, 0), Ty.scalarBool)], [((0, 1), (DescriptorType.uniformBuffer Ty.scalarBool)), ((0, 2), (DescriptorType.storageBuffer Ty.scalarBool))], [("a", ResourceLocator.input (0, 0)), ("b", ResourceLocator.descriptor (0, 2))], [((0, 1), AccessType.readOnly), ((0, 2), AccessType.writeOnly)]⟩
    ⟨(some (Ty.structTy (some "pc") (Members.cons 4 (some "y") (Ty.scalarFloat 32) Members.nil))), [], [((3, 0), Ty.scalarBool)], [((0, 2), (DescriptorType.storageBuffer Ty.scalarBool)), ((0, 1), (DescriptorType.uniformBuffer Ty.scalarBool))], [("b", ResourceLocator.descriptor (0, 2)), ("a", ResourceLocator.input (0, 0))], [((0, 2), AccessType.writeOnly), ((0, 1), AccessType.writeOnly)]⟩
    ⟨(some (Ty.structTy (some "pc") (Members.cons 0 (some "x") (Ty.scalarFloat 32) (Members.cons 4 (some "y") (Ty.scalarFloat 32) Members.nil)))), [((0, 0), Ty.scalarBool)], [((3, 0), Ty.scalarBool)], [((0, 1), (DescriptorType.uniformBuffer Ty.scalarBool)), ((0, 2), (DescriptorType.storageBuffer Ty.scalarBool))], [("a", ResourceLocator.input (0, 0)), ("b", ResourceLocator.descriptor (0, 2))], [((0, 1), AccessType.readWrite), ((0, 2), AccessType.writeOnly)]⟩
    ⟨(some (Ty.structTy (some "pc") (Members.cons 0 (some "x") (Ty.scalarFloat 32) (Members.cons 4 (some "y") (Ty.scalarFloat 32) Members.nil)))), [((0, 0), Ty.scalarBool)], [((3, 0), Ty.scalarBool)], [((0, 1), (DescriptorType.uniformBuffer Ty.scalarBool)), ((0, 2), (DescriptorType.storageBuffer Ty.scalarBool))], [("a", ResourceLocator.input (0, 0)), ("b", ResourceLocator.descriptor (0, 2))], [((0, 1), AccessType.readWrite), ((0, 2), AccessType.writeOnly)]⟩
    (by refine ⟨?_, ?_, ?_, ?_⟩ <;> simp [pcWF, asStruct, keysNodup, akeys, Members.toList])
    (by refine ⟨?_, ?_, ?_, ?_⟩ <;> simp [pcWF, asStruct, keysNodup, akeys, Members.toList])
    (by decide) (by decide) (by decide) (by decide)
